/-
Verification of `gists2repo` (cmd/gist2repo/main.go): a shallow embedding of
the pipeline — flag/env configuration, the paginating gist Lister, the
bounded-concurrency Cloner, the sequential Merger with its error channel,
and the name-derivation helper `repoPathToName` — together with theorems
about the properties the design document states for each stage.

Strings are modelled by their character lists (`String.data`); machine
integers do not occur (page numbers and counters are small naturals).
External effects (the GitHub API, `git` subprocesses, `os.Chdir`) are
modelled as explicit oracles passed to the embedded functions.
-/
import Mathlib

namespace G2R

/-! ## Path and name helpers (`repoPathToName`, `strings.TrimRight`, `filepath.Base`) -/

/-- The cutset of `strings.TrimRight(s, ".git")`: the four characters of the
string `".git"`.  Go's `TrimRight` removes trailing characters drawn from this
set, one at a time — it does not remove the literal suffix `".git"`. -/
def gitCutset : List Char := ['.', 'g', 'i', 't']

/-- `strings.TrimRight(s, ".git")` on character lists: drop from the right
while the character is in the cutset. -/
def trimRightChars (l : List Char) : List Char :=
  (l.reverse.dropWhile (fun c => gitCutset.contains c)).reverse

/-- The trailing-separator strip inside `filepath.Base` (unix separator `/`). -/
def stripTrailingSep (l : List Char) : List Char :=
  (l.reverse.dropWhile (fun c => c = '/')).reverse

/-- The final path component: everything after the last `/` (the whole list
when no `/` occurs), as in `filepath.Base`'s `strings.LastIndex` step. -/
def afterLastSep (l : List Char) : List Char :=
  (l.reverse.takeWhile (fun c => c ≠ '/')).reverse

/-- `filepath.Base` for unix paths: `"."` for the empty path, strip trailing
separators, keep the part after the last separator, and `"/"` when the path
consisted only of separators. -/
def baseChars (l : List Char) : List Char :=
  if l = [] then ['.']
  else
    let p := afterLastSep (stripTrailingSep l)
    if p = [] then ['/'] else p

/-- `repoPathToName` (main.go:124-126):
`strings.TrimRight(filepath.Base(repo), ".git")`. -/
def repoPathToName (repo : String) : String :=
  ⟨trimRightChars (baseChars repo.data)⟩

/-- The derivation as the spec words it (for comparison with the code's
`repoPathToName`): the URL's final path segment with a trailing `".git"`
suffix — the whole four-character suffix, nothing else — removed. -/
def specDeriveName (repo : String) : String :=
  let b : List Char := baseChars repo.data
  if b.reverse.take 4 = ['t', 'i', 'g', '.'] then ⟨(b.reverse.drop 4).reverse⟩
  else ⟨b⟩

/-- A well-formed gist identifier segment: nonempty, free of `/`, and not
ending in a character of the cutset (gist ids are hexadecimal, so this holds
for every real gist URL). -/
def cleanIdChars (l : List Char) : Bool :=
  !l.isEmpty && l.all (fun c => c != '/') && !gitCutset.contains (l.getLastD '/')

/-! ## `filepath.Clean` and `filepath.Join` (used by the Cloner for clone paths) -/

/-- Split a character list into `/`-separated components. -/
def splitSep : List Char → List (List Char)
  | [] => [[]]
  | c :: rest =>
      let r := splitSep rest
      if c = '/' then [] :: r
      else
        match r with
        | [] => [[c]]
        | h :: t => (c :: h) :: t

/-- One step of `filepath.Clean`'s component processing, per its documented
rules: drop empty components and `.`; `..` erases the preceding component
when one exists (and is not itself `..`), is dropped at the root of a rooted
path, and is kept otherwise.  The stack holds the output components in
reverse order. -/
def cleanPush (rooted : Bool) (stack : List (List Char)) (comp : List Char) :
    List (List Char) :=
  if comp = [] ∨ comp = ['.'] then stack
  else if comp = ['.', '.'] then
    match stack with
    | c :: rest => if c = ['.', '.'] then comp :: c :: rest else rest
    | [] => if rooted then [] else [comp]
  else comp :: stack

/-- Interleave components with `/`. -/
def joinComps : List (List Char) → List Char
  | [] => []
  | [c] => c
  | c :: rest => c ++ '/' :: joinComps rest

/-- `filepath.Clean` for unix paths: shortest lexically-equivalent path.
Empty input gives `"."`; a rooted path keeps its leading `/`; an empty
result for a relative path gives `"."`. -/
def filepathClean (p : String) : String :=
  match p.data with
  | [] => "."
  | c :: rest =>
      let rooted := c = '/'
      let comps := (splitSep (c :: rest)).foldl (cleanPush rooted) []
      let body := joinComps comps.reverse
      if rooted then ⟨'/' :: body⟩
      else if body = [] then "." else ⟨body⟩

/-- `filepath.Join` of two elements: the non-empty elements joined with `/`
and cleaned; `""` when both are empty. -/
def filepathJoin (a b : String) : String :=
  if a = "" && b = "" then ""
  else if a = "" then filepathClean b
  else if b = "" then filepathClean a
  else filepathClean (a ++ "/" ++ b)

/-! ## Configuration: flags and the token environment variable -/

/-- The three package-level variables `token`, `repoPath`, `userName`
(main.go:23-27); their Go zero values are empty strings. -/
structure Globals where
  token : String
  repoPath : String
  userName : String
deriving DecidableEq

/-- Package variables at program start: Go string zero values. -/
def initGlobals : Globals := ⟨"", "", ""⟩

/-- A command line: for each registered flag, the value explicitly passed,
or `none` when the flag is absent. -/
structure CmdLine where
  tokenFlag : Option String
  repoFlag : Option String
  userFlag : Option String

/-- `parseFlags` (main.go:29-34).  `flag.StringVar(&v, name, "", usage)`
stores the default `""` into the target variable at registration time;
`flag.Parse` then overwrites the variable only for flags present on the
command line. -/
def parseFlags (cmd : CmdLine) (g : Globals) : Globals :=
  let registered : Globals := { g with token := "", repoPath := "", userName := "" }
  { token := cmd.tokenFlag.getD registered.token,
    repoPath := cmd.repoFlag.getD registered.repoPath,
    userName := cmd.userFlag.getD registered.userName }

/-- `parseEnvs` (main.go:36-41): copy `SYNC2REPO_TOKEN` into `token` when
the environment value is non-empty. -/
def parseEnvs (envToken : String) (g : Globals) : Globals :=
  if envToken ≠ "" then { g with token := envToken } else g

/-- The configuration main computes (main.go:204-206): `parseEnvs()` runs
first, `parseFlags()` second. -/
def mainConfig (envToken : String) (cmd : CmdLine) : Globals :=
  parseFlags cmd (parseEnvs envToken initGlobals)

/-- The fatal-startup test (main.go:208-210): `log.Fatal` fires when any of
the three values is empty. -/
def missingArgs (g : Globals) : Bool :=
  g.userName = "" || g.token = "" || g.repoPath = ""

/-! ## The Lister (`listGists`, main.go:52-78) -/

/-- What the Lister's goroutine produced by the time it finished: the gists
sent on `gistsCh`, the errors sent on `errCh`, the page numbers passed to
the API client, and whether the two channel closes (main.go:73-74) were
reached (`false` only when the modelling fuel ran out). -/
structure ListerRun (G : Type) where
  emitted : List G
  errs : List String
  requested : List Nat
  closedBoth : Bool
deriving DecidableEq

/-- The pagination loop of `listGists` (main.go:56-75).  `fetch p` models
`client.Gists.List(ctx, user, opt)` with `opt.Page = p`, returning the
page's gists together with the response's `NextPage` and `LastPage` fields,
or an error.  The loop runs while `lastPage != 0 && nextPage <= lastPage`,
breaks after sending a fetch error on `errCh`, and closes both channels on
exit.  `fuel` bounds the iteration count to keep the function total; the
theorems only use fuel large enough that it never runs out. -/
def listLoop (fetch : Nat → Except String (List G × Nat × Nat)) :
    Nat → Nat → Nat → ListerRun G
  | 0, _, _ => ⟨[], [], [], false⟩
  | fuel + 1, nextPage, lastPage =>
      if lastPage ≠ 0 ∧ nextPage ≤ lastPage then
        match fetch nextPage with
        | .error e => ⟨[], [e], [nextPage], true⟩
        | .ok (gists, np, lp) =>
            let rest := listLoop fetch fuel np lp
            ⟨gists ++ rest.emitted, rest.errs, nextPage :: rest.requested,
              rest.closedBoth⟩
      else ⟨[], [], [], true⟩

/-- `listGists`: the loop starts from `nextPage, lastPage = 0, 1`
(main.go:58). -/
def listGists (fetch : Nat → Except String (List G × Nat × Nat)) (fuel : Nat) :
    ListerRun G :=
  listLoop fetch fuel 0 1

/-- The GitHub pagination environment for a listing spread over
`pages.length` pages: requesting page `0` returns the first page; page `i`
(`1 ≤ i ≤ P`) returns `pages[i-1]` with `NextPage = i+1` and `LastPage = P`,
except on the last page, where both response fields are zero (the response
carries no further `Link` headers). -/
def apiFetch (pages : List (List G)) (p : Nat) : List G × Nat × Nat :=
  let e := if p = 0 then 1 else p
  (pages.getD (e - 1) [],
   if e < pages.length then e + 1 else 0,
   if e < pages.length then pages.length else 0)

/-- The environment in which every page fetch succeeds. -/
def apiFetchOk (pages : List (List G)) :
    Nat → Except String (List G × Nat × Nat) :=
  fun p => .ok (apiFetch pages p)

/-- The environment in which the fetch of (effective) page `k` fails and
every earlier page succeeds. -/
def apiFetchFailAt (pages : List (List G)) (k : Nat) :
    Nat → Except String (List G × Nat × Nat) :=
  fun p =>
    if (if p = 0 then 1 else p) = k then .error "page fetch failed"
    else .ok (apiFetch pages p)

/-! ## The Bounded Cloner (`cloneRepos`, main.go:80-109) -/

/-- The per-clone destination path (main.go:92):
`filepath.Join(baseDir, repoPathToName(r))`. -/
def repoClonePath (baseDir r : String) : String :=
  filepathJoin baseDir (repoPathToName r)

/-- `cloneRepos` (main.go:80-109), summarized over a completed run.  Each URL
received on `repos` spawns one task that runs `execGit("clone", r, path)`
and then sends `path` on `pathCh` unconditionally — line 96 runs whether or
not line 93 reported an error on `errCh`.  Channel interleaving is
scheduler-dependent; this model lists the sends in task-spawn order, and the
theorems below use only schedule-independent facts (membership and counts).
`gitClone r path` models the clone invocation, returning `some msg` on
failure. -/
def cloneRepos (baseDir : String) (gitClone : String → String → Option String)
    (repos : List String) : List String × List String :=
  (repos.map (fun r => repoClonePath baseDir r),
   repos.filterMap (fun r => gitClone r (repoClonePath baseDir r)))

/-- Program points of one spawned clone goroutine (main.go:90-99): `queued`
before `limit <- struct{}{}`; `cloning` while the external clone command
runs; `sending ok` after the command exited with success (`ok = true`) or
failure (`ok = false`), while the error and path sends happen; `done` after
`<-limit` returned the slot. -/
inductive CloneTask where
  | queued
  | cloning
  | sending (ok : Bool)
  | done
deriving DecidableEq

/-- A task holds one of the 30 semaphore slots from its acquire to its
release. -/
def holdsSlot : CloneTask → Bool
  | .cloning => true
  | .sending _ => true
  | _ => false

/-- A task currently executing the external clone command. -/
def isCloning : CloneTask → Bool
  | .cloning => true
  | _ => false

/-- Slots of the `limit` channel (capacity 30, main.go:85) in use. -/
def slotsUsed (ts : List CloneTask) : Nat := ts.countP holdsSlot

/-- Clone commands executing simultaneously. -/
def runningClones (ts : List CloneTask) : Nat := ts.countP isCloning

/-- Interleaving semantics of the cloner's goroutines.  `acquire` is
`limit <- struct{}{}` (main.go:91), which blocks until one of the 30 buffer
slots is free; `finish` is the clone subprocess exiting, with either
outcome; `release` is `<-limit` (main.go:97), reached unconditionally after
the sends on both the success and the failure path. -/
inductive CloneStep : List CloneTask → List CloneTask → Prop where
  | acquire (pre post : List CloneTask) :
      slotsUsed (pre ++ CloneTask.queued :: post) < 30 →
      CloneStep (pre ++ CloneTask.queued :: post) (pre ++ CloneTask.cloning :: post)
  | finish (pre post : List CloneTask) (ok : Bool) :
      CloneStep (pre ++ CloneTask.cloning :: post)
        (pre ++ CloneTask.sending ok :: post)
  | release (pre post : List CloneTask) (ok : Bool) :
      CloneStep (pre ++ CloneTask.sending ok :: post)
        (pre ++ CloneTask.done :: post)

/-- States reachable in a run of `cloneRepos` over `urls`: one goroutine per
URL, each starting before its acquire. -/
def CloneReachable (urls : List String) (ts : List CloneTask) : Prop :=
  Relation.ReflTransGen CloneStep (urls.map fun _ => CloneTask.queued) ts

/-! ## The Sequential Merger (`mergeRepos`, main.go:137-180) -/

/-- The runtime faults Go raises on misuse of a channel. -/
inductive ChanPanic where
  | sendOnClosed
  | closeOfClosed
deriving DecidableEq

/-- The Merger's buffered error channel `errCh`, with its close flag.  The
aggregator drains it concurrently, so sends never block; what matters here
is that sending on a closed channel and closing a closed channel both panic
at runtime. -/
structure ErrChan where
  buf : List String
  closed : Bool
deriving DecidableEq

/-- `errCh <- e`. -/
def chanSend (c : ErrChan) (e : String) : Except ChanPanic ErrChan :=
  if c.closed then .error .sendOnClosed else .ok { c with buf := c.buf ++ [e] }

/-- `close(errCh)`. -/
def chanClose (c : ErrChan) : Except ChanPanic ErrChan :=
  if c.closed then .error .closeOfClosed else .ok { c with closed := true }

/-- The observable state of one `mergeRepos` run: the error channel, the
`git` invocations issued (in order), and the Local Clone paths whose
four-step sequence was entered (in order). -/
structure MergeState where
  chan : ErrChan
  execs : List (List String)
  processed : List String
deriving DecidableEq

/-- The four-step merge sequence for one Local Clone path (main.go:154-163):
add remote, fetch, merge with unrelated histories allowed, remove remote,
all named by `repoPathToName repo`. -/
def stages (repo : String) : List (List String) :=
  let remoteName := repoPathToName repo
  [["remote", "add", remoteName, repo],
   ["fetch", remoteName],
   ["merge", "--allow-unrelated-histories", "-m", "move gists to repo",
     remoteName ++ "/master"],
   ["remote", "rm", remoteName]]

/-- One iteration of the inner stage loop (main.go:165-170): run `execGit`,
and on failure send the error — wrapped as `"%s: %v"` with the originating
path — then `continue` with the next stage.  `git args` models `execGit`,
returning `some msg` when the command exits non-zero. -/
def runStage (git : List String → Option String) (repo : String)
    (st : MergeState) (args : List String) : Except ChanPanic MergeState := do
  let st1 : MergeState := { st with execs := st.execs ++ [args] }
  match git args with
  | some e => do
      let c ← chanSend st1.chan (repo ++ ": " ++ e)
      pure { st1 with chan := c }
  | none => pure st1

/-- One iteration of the outer path loop (main.go:151-171): record the path
as being processed and run all four stages. -/
def runStages (git : List String → Option String) (st : MergeState)
    (repo : String) : Except ChanPanic MergeState :=
  (stages repo).foldlM (runStage git repo)
    { st with processed := st.processed ++ [repo] }

/-- The Merger's worker goroutine (main.go:150-177): loop over the received
paths, then `os.Chdir(currDir)` — whose failure, modelled by
`chdirBack = some msg`, is sent on `errCh` — and finally `close(errCh)`. -/
def mergeWorkerRun (git : List String → Option String)
    (chdirBack : Option String) (repos : List String) (st : MergeState) :
    Except ChanPanic MergeState := do
  let st2 ← repos.foldlM (runStages git) st
  let st3 ←
    match chdirBack with
    | some e => do
        let c ← chanSend st2.chan e
        pure { st2 with chan := c }
    | none => pure st2
  let c ← chanClose st3.chan
  pure { st3 with chan := c }

/-- `mergeRepos` (main.go:137-180).  `absErr` models a failure of
`filepath.Abs(".")` and `chdirDst` a failure of `os.Chdir(dstRepoPath)`;
on either, the code sends the error and closes `errCh` — without returning
(main.go:140-148) — and then still launches the worker goroutine over the
same channel. -/
def mergeRepos (absErr chdirDst chdirBack : Option String)
    (git : List String → Option String) (repos : List String) :
    Except ChanPanic MergeState := do
  let st0 : MergeState := ⟨⟨[], false⟩, [], []⟩
  let st1 ←
    match absErr with
    | some e => do
        let c ← chanSend st0.chan e
        let c2 ← chanClose c
        pure { st0 with chan := c2 }
    | none => pure st0
  let st2 ←
    match chdirDst with
    | some e => do
        let c ← chanSend st1.chan e
        let c2 ← chanClose c
        pure { st1 with chan := c2 }
    | none => pure st1
  mergeWorkerRun git chdirBack repos st2

/-- The per-path errors a run of the stage loop reports: one entry per
failing stage, tagged with the originating path. -/
def stageErrs (git : List String → Option String) (repo : String) :
    List String :=
  (stages repo).filterMap (fun a => (git a).map (fun e => repo ++ ": " ++ e))

/-- All errors the Merger's loop reports over a path sequence. -/
def mergeErrs (git : List String → Option String) (repos : List String) :
    List String :=
  repos.flatMap (stageErrs git)

/-! ## Lemmas about the char-list scanners -/

theorem dropWhile_all_neg {p : Char → Bool} {l : List Char}
    (h : ∀ c ∈ l, p c = false) : l.dropWhile p = l := by
  cases l with
  | nil => rfl
  | cons a t =>
      exact List.dropWhile_cons_of_neg (by simp [h a (by simp)])

theorem takeWhile_all_pos {p : Char → Bool} {l : List Char}
    (h : ∀ c ∈ l, p c = true) : l.takeWhile p = l := by
  induction l with
  | nil => rfl
  | cons a t ih =>
      rw [List.takeWhile_cons_of_pos (h a (by simp))]
      rw [ih (fun c hc => h c (by simp [hc]))]

theorem dropWhile_head_false {p : Char → Bool} {l t : List Char} {c : Char}
    (h : l.dropWhile p = c :: t) : p c = false := by
  induction l with
  | nil => simp [List.dropWhile] at h
  | cons a l ih =>
      rw [List.dropWhile_cons] at h
      by_cases hp : p a = true
      · exact ih (by simpa [hp] using h)
      · obtain ⟨h1, _⟩ := List.cons.inj (by simpa [hp] using h)
        rw [← h1]
        simpa using hp

theorem mem_of_mem_dropWhile {p : Char → Bool} {l : List Char} {c : Char}
    (h : c ∈ l.dropWhile p) : c ∈ l :=
  (List.dropWhile_sublist p).mem h

/-- Reversing a nonempty list puts its last element (via `getLastD`) first. -/
theorem reverse_eq_getLastD_cons {l : List Char} (hne : l ≠ []) (d : Char) :
    l.reverse = l.getLastD d :: l.dropLast.reverse := by
  conv_lhs => rw [← List.dropLast_concat_getLast hne]
  rw [List.reverse_append]
  simp [List.getLastD_eq_getLast?, List.getLast?_eq_getLast l hne]

/-- Every character of `afterLastSep l` differs from `/`. -/
theorem afterLastSep_no_sep {l : List Char} {c : Char}
    (h : c ∈ afterLastSep l) : c ≠ '/' := by
  unfold afterLastSep at h
  rw [List.mem_reverse] at h
  have := List.mem_takeWhile_imp h
  simpa using this

/-- The characterization of `baseChars` output: either `"."`, or `"/"`, or a
nonempty list containing no `/`. -/
theorem baseChars_cases (l : List Char) :
    baseChars l = ['.'] ∨ baseChars l = ['/'] ∨
      (baseChars l ≠ [] ∧ ∀ c ∈ baseChars l, c ≠ '/') := by
  unfold baseChars
  by_cases h : l = []
  · simp [h]
  · simp only [h, if_false]
    by_cases h2 : afterLastSep (stripTrailingSep l) = []
    · simp [h2]
    · right; right
      refine ⟨by simp [h2], ?_⟩
      intro c hc
      simp only [h2, if_false] at hc
      exact afterLastSep_no_sep hc

/-- Elements of `trimRightChars l` are elements of `l`. -/
theorem mem_of_mem_trimRight {l : List Char} {c : Char}
    (h : c ∈ trimRightChars l) : c ∈ l := by
  unfold trimRightChars at h
  rw [List.mem_reverse] at h
  exact List.mem_reverse.mp (mem_of_mem_dropWhile h)

/-- If `trimRightChars l` is nonempty, its last character is outside the
cutset. -/
theorem trimRight_last_not_cutset {l n : List Char}
    (hn : trimRightChars l = n) (hne : n ≠ []) :
    gitCutset.contains (n.getLastD '/') = false := by
  have hrev : l.reverse.dropWhile (fun c => gitCutset.contains c) = n.reverse := by
    rw [← hn]
    unfold trimRightChars
    rw [List.reverse_reverse]
  rw [reverse_eq_getLastD_cons hne '/'] at hrev
  exact dropWhile_head_false hrev

/-- `baseChars` is the identity on a nonempty list with no `/`. -/
theorem baseChars_of_no_sep {l : List Char} (hne : l ≠ [])
    (h : ∀ c ∈ l, c ≠ '/') : baseChars l = l := by
  unfold baseChars
  have hstrip : stripTrailingSep l = l := by
    unfold stripTrailingSep
    rw [dropWhile_all_neg, List.reverse_reverse]
    intro c hc
    simp only [decide_eq_false_iff_not]
    exact h c (List.mem_reverse.mp hc)
  have hafter : afterLastSep l = l := by
    unfold afterLastSep
    rw [takeWhile_all_pos, List.reverse_reverse]
    intro c hc
    simpa using h c (List.mem_reverse.mp hc)
  rw [if_neg hne]
  simp only [hstrip, hafter]
  rw [if_neg hne]

/-- `trimRightChars` is the identity on a list whose last character is
outside the cutset. -/
theorem trimRight_of_last_not_cutset {l : List Char} (hne : l ≠ [])
    (h : gitCutset.contains (l.getLastD '/') = false) : trimRightChars l = l := by
  unfold trimRightChars
  rw [reverse_eq_getLastD_cons hne '/']
  rw [List.dropWhile_cons_of_neg (by simp only [h]; exact Bool.false_ne_true)]
  rw [← reverse_eq_getLastD_cons hne '/', List.reverse_reverse]

/-- The core idempotence fact at the char-list level. -/
theorem trimRight_base_idem (l : List Char) :
    trimRightChars (baseChars (trimRightChars (baseChars l))) =
      trimRightChars (baseChars l) := by
  rcases baseChars_cases l with h1 | h1 | h1
  · rw [h1]; decide
  · rw [h1]; decide
  · by_cases hne : trimRightChars (baseChars l) = []
    · rw [hne]; decide
    · have hlast := trimRight_last_not_cutset (l := baseChars l) rfl hne
      have hnosep : ∀ c ∈ trimRightChars (baseChars l), c ≠ '/' :=
        fun c hc => h1.2 c (mem_of_mem_trimRight hc)
      rw [baseChars_of_no_sep hne hnosep, trimRight_of_last_not_cutset hne hlast]

/-- The suffix computation for a well-formed URL
`base ++ "/" ++ id ++ ".git"`: the derived name is exactly `id`. -/
theorem repoPathToName_url_chars (B l : List Char) (h : cleanIdChars l = true) :
    trimRightChars (baseChars (B ++ '/' :: (l ++ ['.', 'g', 'i', 't']))) = l := by
  have hne : l ≠ [] := by
    intro hcontra
    rw [hcontra] at h
    simp [cleanIdChars] at h
  have hnosep : ∀ c ∈ l, (c != '/') = true := by
    intro c hc
    simp only [cleanIdChars, Bool.and_eq_true, List.all_eq_true] at h
    exact h.1.2 c hc
  have hlastok : gitCutset.contains (l.getLastD '/') = false := by
    simp only [cleanIdChars, Bool.and_eq_true] at h
    have := h.2
    cases hcc : gitCutset.contains (l.getLastD '/')
    · rfl
    · rw [hcc] at this; simp at this
  have hshape : (B ++ '/' :: (l ++ ['.', 'g', 'i', 't'])).reverse =
      't' :: 'i' :: 'g' :: '.' :: (l.reverse ++ '/' :: B.reverse) := by
    simp
  have hbase : baseChars (B ++ '/' :: (l ++ ['.', 'g', 'i', 't'])) =
      l ++ ['.', 'g', 'i', 't'] := by
    unfold baseChars
    rw [if_neg (by simp)]
    have hstrip : stripTrailingSep (B ++ '/' :: (l ++ ['.', 'g', 'i', 't'])) =
        B ++ '/' :: (l ++ ['.', 'g', 'i', 't']) := by
      unfold stripTrailingSep
      rw [hshape, List.dropWhile_cons_of_neg (by decide), ← hshape,
        List.reverse_reverse]
    rw [hstrip]
    have hafter : afterLastSep (B ++ '/' :: (l ++ ['.', 'g', 'i', 't'])) =
        l ++ ['.', 'g', 'i', 't'] := by
      unfold afterLastSep
      rw [hshape]
      rw [List.takeWhile_cons_of_pos (by decide), List.takeWhile_cons_of_pos (by decide),
        List.takeWhile_cons_of_pos (by decide), List.takeWhile_cons_of_pos (by decide)]
      rw [List.takeWhile_append_of_pos
        (fun a ha => by simpa using hnosep a (List.mem_reverse.mp ha))]
      rw [List.takeWhile_cons_of_neg (by simp)]
      simp
    rw [hafter, if_neg (by simp)]
  rw [hbase]
  unfold trimRightChars
  have hshape2 : (l ++ ['.', 'g', 'i', 't']).reverse =
      't' :: 'i' :: 'g' :: '.' :: l.reverse := by simp
  rw [hshape2]
  rw [List.dropWhile_cons_of_pos (by decide), List.dropWhile_cons_of_pos (by decide),
    List.dropWhile_cons_of_pos (by decide), List.dropWhile_cons_of_pos (by decide)]
  rw [reverse_eq_getLastD_cons hne '/']
  rw [List.dropWhile_cons_of_neg (by simp only [hlastok]; exact Bool.false_ne_true)]
  rw [← reverse_eq_getLastD_cons hne '/', List.reverse_reverse]

/-- String-level wrapper of the suffix computation. -/
theorem repoPathToName_url (b id : String) (h : cleanIdChars id.data = true) :
    repoPathToName (b ++ "/" ++ id ++ ".git") = id := by
  unfold repoPathToName
  have hdata : (b ++ "/" ++ id ++ ".git").data =
      b.data ++ '/' :: (id.data ++ ['.', 'g', 'i', 't']) := by
    simp [String.data_append]
  rw [hdata, repoPathToName_url_chars b.data id.data h]

/-! ## Lemmas about the Merger -/

theorem except_bind_ok {α β E : Type} (v : α) (f : α → Except E β) :
    (Except.ok v >>= f) = f v := rfl

theorem except_bind_error {α β E : Type} (err : E) (f : α → Except E β) :
    ((Except.error err : Except E α) >>= f) = Except.error err := rfl

theorem except_pure {α E : Type} (v : α) :
    (pure v : Except E α) = Except.ok v := rfl

theorem except_map_ok {α β E : Type} (f : α → β) (v : α) :
    (f <$> (Except.ok v : Except E α)) = Except.ok (f v) := rfl

/-- With the channel open, the stage loop never panics: it executes every
stage of `L` in order and reports one tagged error per failing stage. -/
theorem foldStages_open (git : List String → Option String) (repo : String) :
    ∀ (L : List (List String)) (st : MergeState), st.chan.closed = false →
    L.foldlM (runStage git repo) st =
      Except.ok ⟨⟨st.chan.buf ++
          L.filterMap (fun a => (git a).map (fun e => repo ++ ": " ++ e)), false⟩,
        st.execs ++ L, st.processed⟩ := by
  intro L
  induction L with
  | nil =>
      intro st h
      obtain ⟨⟨buf, closed⟩, execs, processed⟩ := st
      simp only at h
      subst h
      simp [except_pure]
  | cons a L ih =>
      intro st h
      obtain ⟨⟨buf, closed⟩, execs, processed⟩ := st
      simp only at h
      subst h
      rw [List.foldlM_cons]
      cases hg : git a with
      | none =>
          have hstep : runStage git repo ⟨⟨buf, false⟩, execs, processed⟩ a =
              Except.ok ⟨⟨buf, false⟩, execs ++ [a], processed⟩ := by
            simp [runStage, hg, except_pure]
          rw [hstep, except_bind_ok, ih _ rfl]
          simp [List.filterMap_cons, hg]
      | some e =>
          have hstep : runStage git repo ⟨⟨buf, false⟩, execs, processed⟩ a =
              Except.ok ⟨⟨buf ++ [repo ++ ": " ++ e], false⟩, execs ++ [a],
                processed⟩ := by
            simp [runStage, hg, chanSend]
          rw [hstep, except_bind_ok, ih _ rfl]
          simp [List.filterMap_cons, hg]

/-- With the channel open, one outer-loop iteration records its path and
runs all four stages. -/
theorem runStages_open (git : List String → Option String) (st : MergeState)
    (repo : String) (h : st.chan.closed = false) :
    runStages git st repo =
      Except.ok ⟨⟨st.chan.buf ++ stageErrs git repo, false⟩,
        st.execs ++ stages repo, st.processed ++ [repo]⟩ := by
  unfold runStages stageErrs
  rw [foldStages_open git repo (stages repo)
    { st with processed := st.processed ++ [repo] } h]

/-- With the channel open, the whole path loop processes every path in
order. -/
theorem foldRepos_open (git : List String → Option String) :
    ∀ (repos : List String) (st : MergeState), st.chan.closed = false →
    repos.foldlM (runStages git) st =
      Except.ok ⟨⟨st.chan.buf ++ mergeErrs git repos, false⟩,
        st.execs ++ repos.flatMap stages, st.processed ++ repos⟩ := by
  intro repos
  induction repos with
  | nil =>
      intro st h
      obtain ⟨⟨buf, closed⟩, execs, processed⟩ := st
      simp only at h
      subst h
      simp [mergeErrs, except_pure]
  | cons r rs ih =>
      intro st h
      rw [List.foldlM_cons, runStages_open git st r h, except_bind_ok, ih _ rfl]
      simp [mergeErrs, List.flatMap_cons]

/-- The worker's complete behaviour over an open channel: all stages of all
paths run, the errors (plus any restore-chdir error) are sent, and the
channel ends closed. -/
theorem mergeWorkerRun_open (git : List String → Option String)
    (chdirBack : Option String) (repos : List String) (st : MergeState)
    (h : st.chan.closed = false) :
    mergeWorkerRun git chdirBack repos st =
      Except.ok ⟨⟨st.chan.buf ++ mergeErrs git repos ++ chdirBack.toList, true⟩,
        st.execs ++ repos.flatMap stages, st.processed ++ repos⟩ := by
  unfold mergeWorkerRun
  rw [foldRepos_open git repos st h, except_bind_ok]
  cases chdirBack with
  | none => simp [chanClose, except_pure, except_bind_ok, except_map_ok]
  | some e => simp [chanSend, chanClose, except_pure, except_bind_ok, except_map_ok]

/-- The normal run of `mergeRepos`: `filepath.Abs` and both `os.Chdir`
calls behave, so the result is the full trace. -/
theorem mergeRepos_normal (git : List String → Option String)
    (chdirBack : Option String) (repos : List String) :
    mergeRepos none none chdirBack git repos =
      Except.ok ⟨⟨mergeErrs git repos ++ chdirBack.toList, true⟩,
        repos.flatMap stages, repos⟩ := by
  show mergeWorkerRun git chdirBack repos ⟨⟨[], false⟩, [], []⟩ =
    Except.ok ⟨⟨mergeErrs git repos ++ chdirBack.toList, true⟩,
      repos.flatMap stages, repos⟩
  rw [mergeWorkerRun_open git chdirBack repos ⟨⟨[], false⟩, [], []⟩ rfl]
  simp

/-- A successful stage step never changes whether the channel is closed. -/
theorem runStage_ok_closed {git : List String → Option String} {repo : String}
    {st st2 : MergeState} {args : List String}
    (h : runStage git repo st args = Except.ok st2) :
    st2.chan.closed = st.chan.closed := by
  unfold runStage at h
  cases hg : git args with
  | none =>
      rw [hg] at h
      simp only [pure, Except.pure] at h
      cases h
      rfl
  | some e =>
      rw [hg] at h
      simp only [chanSend] at h
      cases hc : st.chan.closed with
      | true => rw [hc] at h; simp at h
      | false =>
          rw [hc] at h
          simp only [Bool.false_eq_true, if_false, except_bind_ok,
            except_pure] at h
          cases h
          rfl

/-- Successful completion of the stage loop preserves channel closedness. -/
theorem foldStages_ok_closed {git : List String → Option String} {repo : String} :
    ∀ {L : List (List String)} {st st2 : MergeState},
    L.foldlM (runStage git repo) st = Except.ok st2 →
    st2.chan.closed = st.chan.closed := by
  intro L
  induction L with
  | nil =>
      intro st st2 h
      simp only [List.foldlM_nil, pure, Except.pure] at h
      cases h
      rfl
  | cons a L ih =>
      intro st st2 h
      rw [List.foldlM_cons] at h
      cases hr : runStage git repo st a with
      | error p => rw [hr, except_bind_error] at h; cases h
      | ok mid =>
          rw [hr, except_bind_ok] at h
          exact (ih h).trans (runStage_ok_closed hr)

/-- Successful completion of the path loop preserves channel closedness. -/
theorem foldRepos_ok_closed {git : List String → Option String} :
    ∀ {repos : List String} {st st2 : MergeState},
    repos.foldlM (runStages git) st = Except.ok st2 →
    st2.chan.closed = st.chan.closed := by
  intro repos
  induction repos with
  | nil =>
      intro st st2 h
      simp only [List.foldlM_nil, pure, Except.pure] at h
      cases h
      rfl
  | cons r rs ih =>
      intro st st2 h
      rw [List.foldlM_cons] at h
      cases hr : runStages git st r with
      | error p => rw [hr, except_bind_error] at h; cases h
      | ok mid =>
          rw [hr, except_bind_ok] at h
          have h2 : mid.chan.closed = st.chan.closed := by
            unfold runStages at hr
            have h3 := foldStages_ok_closed hr
            simpa using h3
          exact (ih h).trans h2

/-- Once the channel is closed, the worker goroutine cannot finish without a
runtime panic: its final `close(errCh)` (or any error send before it) faults. -/
theorem mergeWorkerRun_closed (git : List String → Option String)
    (chdirBack : Option String) (repos : List String) (st : MergeState)
    (h : st.chan.closed = true) :
    ∃ p : ChanPanic, mergeWorkerRun git chdirBack repos st = Except.error p := by
  unfold mergeWorkerRun
  cases hr : repos.foldlM (runStages git) st with
  | error p => exact ⟨p, rfl⟩
  | ok st2 =>
      have h2 : st2.chan.closed = true := (foldRepos_ok_closed hr).trans h
      cases chdirBack with
      | some e =>
          refine ⟨ChanPanic.sendOnClosed, ?_⟩
          simp [except_bind_ok, chanSend, h2, except_bind_error]
      | none =>
          refine ⟨ChanPanic.closeOfClosed, ?_⟩
          simp [except_bind_ok, except_pure, chanClose, h2, except_bind_error]

/-! ## Claim theorems -/

/-- C3, counterexample: for the URL `"abc.g"` the final path segment carries
no trailing `".git"` suffix, so the claimed derivation leaves it unchanged —
but the code's `strings.TrimRight` cutset strips the trailing `'.'` and
`'g'`, giving `"abc"`. -/
theorem repoPathToName_not_suffix_strip :
    repoPathToName "abc.g" = "abc" ∧ specDeriveName "abc.g" = "abc.g" ∧
      repoPathToName "abc.g" ≠ specDeriveName "abc.g" := by
  refine ⟨by decide, by decide, by decide⟩

/-- C3 (amended): the derived Local Clone directory name is the URL's final
path segment with all trailing characters drawn from `'.','g','i','t'`
removed — for URLs whose final segment is a well-formed identifier followed
by `".git"`, that is exactly the identifier — and the derivation is
idempotent: `derive (derive x) = derive x` for every string. -/
theorem repoPathToName_spec :
    (∀ s : String, repoPathToName (repoPathToName s) = repoPathToName s) ∧
    ∀ b id : String, cleanIdChars id.data = true →
      repoPathToName (b ++ "/" ++ id ++ ".git") = id := by
  constructor
  · intro s
    show (⟨trimRightChars (baseChars (trimRightChars (baseChars s.data)))⟩ : String) =
      ⟨trimRightChars (baseChars s.data)⟩
    rw [trimRight_base_idem]
  · exact repoPathToName_url

/-- Witness for the amended C3 at concrete inputs. -/
theorem repoPathToName_spec_witness :
    repoPathToName (repoPathToName "x//y.git") = repoPathToName "x//y.git" ∧
    cleanIdChars ("abc123" : String).data = true ∧
    repoPathToName ("https://gist.github.com" ++ "/" ++ "abc123" ++ ".git") =
      "abc123" :=
  ⟨repoPathToName_spec.1 "x//y.git", by decide,
    repoPathToName_spec.2 "https://gist.github.com" "abc123" (by decide)⟩

/-- C4, counterexample: two distinct clone URLs whose derived directory
names coincide, so the derivation is not injective on clone URLs. -/
theorem repoPathToName_not_injective :
    ("https://host/a/repo.git" : String) ≠ "https://host/b/repo.git" ∧
      repoPathToName "https://host/a/repo.git" =
        repoPathToName "https://host/b/repo.git" := by
  refine ⟨by decide, by decide⟩

/-- C4 (amended): the derivation is injective on gist-shaped clone URLs —
URLs sharing a host prefix whose final segments are distinct well-formed
identifiers followed by `".git"` (gist ids are hexadecimal, hence
well-formed) derive distinct subdirectory names. -/
theorem repoPathToName_injective_on_gists (b id1 id2 : String)
    (h1 : cleanIdChars id1.data = true) (h2 : cleanIdChars id2.data = true)
    (hne : id1 ≠ id2) :
    repoPathToName (b ++ "/" ++ id1 ++ ".git") ≠
      repoPathToName (b ++ "/" ++ id2 ++ ".git") := by
  rw [repoPathToName_url b id1 h1, repoPathToName_url b id2 h2]
  exact hne

/-- Witness for the amended C4 at concrete inputs. -/
theorem repoPathToName_injective_on_gists_witness :
    cleanIdChars ("aaaa" : String).data = true ∧
    cleanIdChars ("bbbb" : String).data = true ∧
    ("aaaa" : String) ≠ "bbbb" ∧
    repoPathToName ("https://gist.github.com" ++ "/" ++ "aaaa" ++ ".git") ≠
      repoPathToName ("https://gist.github.com" ++ "/" ++ "bbbb" ++ ".git") :=
  ⟨by decide, by decide, by decide,
    repoPathToName_injective_on_gists "https://gist.github.com" "aaaa" "bbbb"
      (by decide) (by decide) (by decide)⟩

/-- C2 (the code loses the environment token): with `SYNC2REPO_TOKEN` set to
`"secret"` and no `--token` flag on the command line, the registration of
the flag inside `parseFlags` — which runs after `parseEnvs` — resets the
package variable to the empty default, so the credential ends up `""`, not
`"secret"`, and main's mandatory-argument check then exits fatally. -/
theorem mainConfig_env_token_lost :
    (mainConfig "secret" ⟨none, some "/repo", some "alice"⟩).token = "" ∧
    (mainConfig "secret" ⟨none, some "/repo", some "alice"⟩).token ≠ "secret" ∧
    missingArgs (mainConfig "secret" ⟨none, some "/repo", some "alice"⟩) = true ∧
    (mainConfig "secret" ⟨some "flagtok", some "/repo", some "alice"⟩).token =
      "flagtok" := by
  refine ⟨by decide, by decide, by decide, by decide⟩

/-- C5: for every `git` oracle — including ones failing any subset of the
steps — the Merger runs all four stages for every path, in order
(`execs = repos.flatMap stages`: no step is short-circuited by an earlier
failure, and later paths still run), and every reported error is tagged with
its originating path. -/
theorem mergeRepos_runs_all_stages (git : List String → Option String)
    (repos : List String) :
    mergeRepos none none none git repos =
      Except.ok ⟨⟨mergeErrs git repos, true⟩, repos.flatMap stages, repos⟩ ∧
    ∀ e ∈ mergeErrs git repos, ∃ r ∈ repos, ∃ m, e = r ++ ": " ++ m := by
  constructor
  · have h := mergeRepos_normal git none repos
    simpa using h
  · intro e he
    unfold mergeErrs at he
    obtain ⟨r, hr, he2⟩ := List.mem_flatMap.mp he
    refine ⟨r, hr, ?_⟩
    unfold stageErrs at he2
    obtain ⟨a, _, ha⟩ := List.mem_filterMap.mp he2
    cases hg : git a with
    | none => rw [hg] at ha; simp at ha
    | some m =>
        rw [hg] at ha
        simp only [Option.map_some'] at ha
        exact ⟨m, (Option.some.inj ha).symm⟩

/-- Witness for C5: a two-path run whose `fetch` steps fail. -/
theorem mergeRepos_runs_all_stages_witness :
    mergeRepos none none none
        (fun args => if args.head? = some "fetch" then some "ferr" else none)
        ["/x/a", "/x/b"] =
      Except.ok ⟨⟨mergeErrs
          (fun args => if args.head? = some "fetch" then some "ferr" else none)
          ["/x/a", "/x/b"], true⟩,
        (["/x/a", "/x/b"] : List String).flatMap stages, ["/x/a", "/x/b"]⟩ ∧
    "/x/a: ferr" ∈ mergeErrs
        (fun args => if args.head? = some "fetch" then some "ferr" else none)
        ["/x/a", "/x/b"] ∧
    ∃ r ∈ (["/x/a", "/x/b"] : List String), ∃ m, "/x/a: ferr" = r ++ ": " ++ m :=
  ⟨(mergeRepos_runs_all_stages _ _).1, by decide,
    (mergeRepos_runs_all_stages
      (fun args => if args.head? = some "fetch" then some "ferr" else none)
      ["/x/a", "/x/b"]).2 "/x/a: ferr" (by decide)⟩

/-- C8: the Merger processes each received Local Clone path exactly once, in
exactly the order received — `st.processed = repos` — for every `git`
oracle, so a failing merge step on one path never prevents later paths. -/
theorem mergeRepos_processes_in_order (git : List String → Option String)
    (repos : List String) :
    ∃ st : MergeState, mergeRepos none none none git repos = Except.ok st ∧
      st.processed = repos :=
  ⟨⟨⟨mergeErrs git repos, true⟩, repos.flatMap stages, repos⟩,
    by simpa using mergeRepos_normal git none repos, rfl⟩

/-- C1, counterexample: two gists, the first of which fails to clone.  The
error channel carries the clone error, but the failed URL's path is still
sent downstream (line 96 is unconditional), and the Merger enters the
four-step sequence for both paths, not only for the successful clone's. -/
theorem cloneRepos_failed_path_still_merged :
    (cloneRepos "/tmp/gists"
        (fun r _ => if r = "https://gist.github.com/aaaa.git"
          then some "exit status 128" else none)
        ["https://gist.github.com/aaaa.git", "https://gist.github.com/bbbb.git"]).2 =
      ["exit status 128"] ∧
    (cloneRepos "/tmp/gists"
        (fun r _ => if r = "https://gist.github.com/aaaa.git"
          then some "exit status 128" else none)
        ["https://gist.github.com/aaaa.git", "https://gist.github.com/bbbb.git"]).1 =
      ["/tmp/gists/aaaa", "/tmp/gists/bbbb"] ∧
    mergeRepos none none none (fun _ => none)
        ["/tmp/gists/aaaa", "/tmp/gists/bbbb"] =
      Except.ok ⟨⟨[], true⟩, stages "/tmp/gists/aaaa" ++ stages "/tmp/gists/bbbb",
        ["/tmp/gists/aaaa", "/tmp/gists/bbbb"]⟩ :=
  ⟨by decide, by decide, by rfl⟩

/-- C1 (amended): every consumed clone URL — failed or not — produces its
Local Clone path downstream, and the Merger attempts the four-step sequence
for every path it receives, so after a run with a failed clone the failed
path is merged too (and the clone error is reported separately). -/
theorem cloneRepos_paths_unconditional (baseDir : String)
    (gitClone : String → String → Option String) (urls : List String)
    (git : List String → Option String) :
    (∀ r ∈ urls, repoClonePath baseDir r ∈ (cloneRepos baseDir gitClone urls).1) ∧
    mergeRepos none none none git ((cloneRepos baseDir gitClone urls).1) =
      Except.ok ⟨⟨mergeErrs git ((cloneRepos baseDir gitClone urls).1), true⟩,
        ((cloneRepos baseDir gitClone urls).1).flatMap stages,
        (cloneRepos baseDir gitClone urls).1⟩ := by
  constructor
  · intro r hr
    exact List.mem_map_of_mem _ hr
  · have h := mergeRepos_normal git none ((cloneRepos baseDir gitClone urls).1)
    simpa using h

/-- Witness for the amended C1 at a concrete failing clone. -/
theorem cloneRepos_paths_unconditional_witness :
    ("u.git" : String) ∈ (["u.git"] : List String) ∧
    repoClonePath "/b" "u.git" ∈
      (cloneRepos "/b" (fun _ _ => some "boom") ["u.git"]).1 :=
  ⟨by decide,
    (cloneRepos_paths_unconditional "/b" (fun _ _ => some "boom") ["u.git"]
      (fun _ => none)).1 "u.git" (by decide)⟩

/-- C10: if `filepath.Abs(".")` or `os.Chdir(dstRepoPath)` fails at the
start of `mergeRepos`, the function closes `errCh` and still launches the
worker goroutine, which later sends on and/or closes the already-closed
channel, so the program panics at runtime instead of merely reporting the
error. -/
theorem mergeRepos_panics_after_early_close
    (absErr chdirDst chdirBack : Option String)
    (git : List String → Option String) (repos : List String)
    (h : absErr.isSome ∨ chdirDst.isSome) :
    ∃ p : ChanPanic,
      mergeRepos absErr chdirDst chdirBack git repos = Except.error p := by
  cases absErr with
  | some e =>
      cases chdirDst with
      | some e2 => exact ⟨ChanPanic.sendOnClosed, rfl⟩
      | none =>
          exact mergeWorkerRun_closed git chdirBack repos
            ⟨⟨[e], true⟩, [], []⟩ rfl
  | none =>
      cases chdirDst with
      | some e2 =>
          exact mergeWorkerRun_closed git chdirBack repos
            ⟨⟨[e2], true⟩, [], []⟩ rfl
      | none => simp at h

/-- Witness for C10: a failing `filepath.Abs(".")` alone drives the run to
a panic. -/
theorem mergeRepos_panics_after_early_close_witness :
    ((some "abs failed" : Option String).isSome ∨
      (none : Option String).isSome) ∧
    ∃ p : ChanPanic,
      mergeRepos (some "abs failed") none none (fun _ => none) [] =
        Except.error p :=
  ⟨Or.inl rfl,
    mergeRepos_panics_after_early_close (some "abs failed") none none
      (fun _ => none) [] (Or.inl rfl)⟩

/-! ## Lemmas about the Cloner's admission gate -/

theorem holdsSlot_of_isCloning {t : CloneTask} (h : isCloning t = true) :
    holdsSlot t = true := by
  cases t <;> simp [isCloning, holdsSlot] at h ⊢

/-- At spawn time no slot is held. -/
theorem slotsUsed_init (urls : List String) :
    slotsUsed (urls.map fun _ => CloneTask.queued) = 0 := by
  unfold slotsUsed
  rw [List.countP_map]
  simp [Function.comp, holdsSlot]

/-- Each step keeps the number of held slots at or below the ceiling:
`acquire` is guarded by the channel capacity, `finish` keeps the slot, and
`release` frees one. -/
theorem cloneStep_slots {s t : List CloneTask} (h : CloneStep s t)
    (hs : slotsUsed s ≤ 30) : slotsUsed t ≤ 30 := by
  cases h with
  | acquire pre post hlt =>
      unfold slotsUsed at hlt ⊢
      simp [List.countP_append, List.countP_cons, holdsSlot] at hlt ⊢
      omega
  | finish pre post ok =>
      unfold slotsUsed at hs ⊢
      simp [List.countP_append, List.countP_cons, holdsSlot] at hs ⊢
      omega
  | release pre post ok =>
      unfold slotsUsed at hs ⊢
      simp [List.countP_append, List.countP_cons, holdsSlot] at hs ⊢
      omega

/-- Invariant: every reachable state holds at most 30 slots. -/
theorem cloneReachable_slots {urls : List String} {ts : List CloneTask}
    (h : CloneReachable urls ts) : slotsUsed ts ≤ 30 := by
  unfold CloneReachable at h
  induction h with
  | refl => rw [slotsUsed_init]; omega
  | tail hab hbc ih => exact cloneStep_slots hbc ih

/-- C9: in every reachable state of a `cloneRepos` run, at most 30 external
clone commands execute simultaneously: a task runs the clone command only
between its acquire of one `limit` slot and its unconditional release, and
at most 30 slots exist. -/
theorem cloner_bounded_concurrency (urls : List String) (ts : List CloneTask)
    (h : CloneReachable urls ts) : runningClones ts ≤ 30 := by
  have h1 : runningClones ts ≤ slotsUsed ts := by
    unfold runningClones slotsUsed
    exact List.countP_mono_left (fun x _ hx => holdsSlot_of_isCloning hx)
  exact le_trans h1 (cloneReachable_slots h)

/-- Witness for C9: a state with one task mid-clone, reached by one acquire
step. -/
theorem cloner_bounded_concurrency_witness :
    CloneReachable ["https://gist.github.com/aaaa.git"] [CloneTask.cloning] ∧
      runningClones [CloneTask.cloning] ≤ 30 := by
  have hstep : CloneStep [CloneTask.queued] [CloneTask.cloning] :=
    CloneStep.acquire [] [] (by decide)
  have hreach : CloneReachable ["https://gist.github.com/aaaa.git"]
      [CloneTask.cloning] := Relation.ReflTransGen.single hstep
  exact ⟨hreach, cloner_bounded_concurrency _ _ hreach⟩

/-! ## Lemmas about the Lister -/

/-- All-success pagination from page `k` of `P` with `lastPage = P`: the
loop emits the remaining pages in order, requests pages `k..P`, reports no
error, and closes both channels. -/
theorem listLoop_ok_from {G : Type} (pages : List (List G)) :
    ∀ (fuel k : Nat), 1 ≤ k → k ≤ pages.length →
      pages.length - k + 2 ≤ fuel →
      listLoop (apiFetchOk pages) fuel k pages.length =
        ⟨(pages.drop (k - 1)).flatten, [],
          List.range' k (pages.length - k + 1), true⟩ := by
  intro fuel
  induction fuel with
  | zero => intro k h1 h2 hf; exact absurd hf (by omega)
  | succ fuel ih =>
      intro k h1 h2 hf
      have hk1 : k - 1 < pages.length := by omega
      have hdrop := List.drop_eq_getElem_cons hk1
      rw [show k - 1 + 1 = k from by omega] at hdrop
      have hgetD : pages.getD (k - 1) [] = pages[k - 1] := by
        simp [List.getD_eq_getElem?_getD, List.getElem?_eq_getElem hk1]
      simp only [listLoop]
      rw [if_pos ⟨by omega, h2⟩]
      simp only [apiFetchOk, apiFetch]
      rw [if_neg (by omega : ¬ k = 0)]
      by_cases hk : k < pages.length
      · rw [if_pos hk, if_pos hk]
        rw [ih (k + 1) (by omega) (by omega) (by omega)]
        simp only [Nat.add_sub_cancel]
        rw [hdrop, List.flatten_cons, hgetD,
          show pages.length - (k + 1) + 1 = pages.length - k from by omega,
          List.range'_succ]
      · rw [if_neg hk, if_neg hk]
        have hkP : k = pages.length := by omega
        obtain ⟨f, rfl⟩ : ∃ f, fuel = f + 1 := ⟨fuel - 1, by omega⟩
        simp only [listLoop]
        rw [if_neg (by simp)]
        have hdk : pages.drop k = [] := by
          rw [hkP]
          exact List.drop_length pages
        rw [hdrop, List.flatten_cons, hgetD,
          show pages.length - k + 1 = 1 from by omega, List.range'_succ, hdk]
        simp

/-- C6: when no page fetch fails, the Lister emits exactly the N descriptors
of all P pages (in page order), reports no error, and closes both its
descriptor channel and its error channel. -/
theorem lister_emits_all {G : Type} (pages : List (List G)) (fuel : Nat)
    (hf : pages.length + 2 ≤ fuel) :
    (listGists (apiFetchOk pages) fuel).emitted = pages.flatten ∧
    (listGists (apiFetchOk pages) fuel).emitted.length =
      (pages.map List.length).sum ∧
    (listGists (apiFetchOk pages) fuel).errs = [] ∧
    (listGists (apiFetchOk pages) fuel).closedBoth = true := by
  have key : ∃ reqs, listGists (apiFetchOk pages) fuel =
      ⟨pages.flatten, [], reqs, true⟩ := by
    unfold listGists
    obtain ⟨f, rfl⟩ : ∃ f, fuel = f + 1 := ⟨fuel - 1, by omega⟩
    simp only [listLoop]
    rw [if_pos ⟨by omega, by omega⟩]
    simp only [apiFetchOk, apiFetch]
    norm_num
    by_cases hP : 1 < pages.length
    · rw [if_pos hP, if_pos hP]
      rw [listLoop_ok_from pages f 2 (by omega) (by omega) (by omega)]
      obtain ⟨p0, t, rfl⟩ := List.exists_cons_of_ne_nil
        (show pages ≠ [] by intro hc; rw [hc] at hP; simp at hP)
      simp
    · rw [if_neg hP, if_neg hP]
      obtain ⟨f2, rfl⟩ : ∃ f2, f = f2 + 1 := ⟨f - 1, by omega⟩
      simp only [listLoop]
      rw [if_neg (by simp)]
      match pages, hP with
      | [], _ => simp
      | [p0], _ => simp
      | p0 :: p1 :: t, hP => simp at hP
  obtain ⟨reqs, hkey⟩ := key
  rw [hkey]
  simp

/-- Witness for C6: five descriptors over three pages, fuel 6. -/
theorem lister_emits_all_witness :
    ([[1, 2], [3], [4, 5]] : List (List Nat)).length + 2 ≤ 6 ∧
    (listGists (apiFetchOk [[1, 2], [3], [4, 5]]) 6).emitted = [1, 2, 3, 4, 5] ∧
    (listGists (apiFetchOk [[1, 2], [3], [4, 5]]) 6).emitted.length = 5 ∧
    (listGists (apiFetchOk [[1, 2], [3], [4, 5]]) 6).errs = [] ∧
    (listGists (apiFetchOk [[1, 2], [3], [4, 5]]) 6).closedBoth = true := by
  have h := lister_emits_all ([[1, 2], [3], [4, 5]] : List (List Nat)) 6
    (by decide)
  exact ⟨by decide, by simpa using h.1, by simpa using h.2.1, h.2.2.1, h.2.2.2⟩

/-- Failing pagination from page `j` with the failure at page `k`: the loop
emits pages `j..k-1`, reports the single error, requests exactly pages
`j..k`, and still closes both channels. -/
theorem listLoop_fail_from {G : Type} (pages : List (List G)) (k : Nat)
    (hk1 : 1 ≤ k) (hkP : k ≤ pages.length) :
    ∀ (fuel j : Nat), 1 ≤ j → j ≤ k → k - j + 2 ≤ fuel →
      listLoop (apiFetchFailAt pages k) fuel j pages.length =
        ⟨((pages.drop (j - 1)).take (k - j)).flatten, ["page fetch failed"],
          List.range' j (k - j + 1), true⟩ := by
  intro fuel
  induction fuel with
  | zero => intro j h1 h2 hf; exact absurd hf (by omega)
  | succ fuel ih =>
      intro j h1 h2 hf
      simp only [listLoop]
      rw [if_pos ⟨by omega, by omega⟩]
      simp only [apiFetchFailAt]
      rw [show (if j = 0 then 1 else j) = j from if_neg (by omega)]
      by_cases hjk : j = k
      · rw [if_pos hjk]
        rw [show k - j = 0 from by omega, show (0 : Nat) + 1 = 1 from rfl,
          List.range'_succ]
        simp
      · rw [if_neg hjk]
        simp only [apiFetch]
        rw [if_neg (by omega : ¬ j = 0)]
        have hjP : j < pages.length := by omega
        rw [if_pos hjP, if_pos hjP]
        rw [ih (j + 1) (by omega) (by omega) (by omega)]
        have hj1 : j - 1 < pages.length := by omega
        have hdrop := List.drop_eq_getElem_cons hj1
        rw [show j - 1 + 1 = j from by omega] at hdrop
        have hgetD : pages.getD (j - 1) [] = pages[j - 1] := by
          simp [List.getD_eq_getElem?_getD, List.getElem?_eq_getElem hj1]
        have hemit : ((pages.drop (j - 1)).take (k - j)).flatten =
            pages[j - 1] ++ ((pages.drop j).take (k - (j + 1))).flatten := by
          rw [hdrop, show k - j = (k - (j + 1)) + 1 from by omega,
            List.take_succ_cons, List.flatten_cons]
        have hreq : List.range' j (k - j + 1) =
            j :: List.range' (j + 1) (k - (j + 1) + 1) := by
          rw [List.range'_succ, show k - j = k - (j + 1) + 1 from by omega]
        simp only [Nat.add_sub_cancel]
        rw [hgetD, hemit, hreq]

/-- C7: when the fetch of page `k` fails, the Lister emits exactly the
descriptors of pages `1..k-1`, emits exactly one error, requests no page
past `k`, and still closes both channels normally. -/
theorem lister_fail_at_page {G : Type} (pages : List (List G)) (k fuel : Nat)
    (hk1 : 1 ≤ k) (hkP : k ≤ pages.length) (hf : pages.length + 2 ≤ fuel) :
    (listGists (apiFetchFailAt pages k) fuel).emitted =
      (pages.take (k - 1)).flatten ∧
    (listGists (apiFetchFailAt pages k) fuel).errs = ["page fetch failed"] ∧
    (listGists (apiFetchFailAt pages k) fuel).requested =
      0 :: List.range' 2 (k - 1) ∧
    (∀ p ∈ (listGists (apiFetchFailAt pages k) fuel).requested,
      (if p = 0 then 1 else p) ≤ k) ∧
    (listGists (apiFetchFailAt pages k) fuel).closedBoth = true := by
  have key : listGists (apiFetchFailAt pages k) fuel =
      ⟨(pages.take (k - 1)).flatten, ["page fetch failed"],
        0 :: List.range' 2 (k - 1), true⟩ := by
    unfold listGists
    obtain ⟨f, rfl⟩ : ∃ f, fuel = f + 1 := ⟨fuel - 1, by omega⟩
    simp only [listLoop]
    rw [if_pos ⟨by omega, by omega⟩]
    simp only [apiFetchFailAt]
    norm_num
    by_cases hk : k = 1
    · rw [if_pos hk.symm]
      rw [show k - 1 = 0 from by omega]
      simp
    · rw [if_neg (fun hc => hk hc.symm)]
      simp only [apiFetch]
      norm_num
      have hP : 1 < pages.length := by omega
      rw [if_pos hP, if_pos hP]
      rw [listLoop_fail_from pages k hk1 hkP f 2 (by omega) (by omega)
        (by omega)]
      obtain ⟨p0, t, rfl⟩ := List.exists_cons_of_ne_nil
        (show pages ≠ [] by intro hc; rw [hc] at hP; simp at hP)
      rw [show k - 1 = (k - 2) + 1 from by omega, List.take_succ_cons,
        List.flatten_cons]
      simp [show k - 2 = k - (1 + 1) from by omega,
        show k - 2 + 1 = k - 1 from by omega]
  rw [key]
  refine ⟨rfl, rfl, rfl, ?_, rfl⟩
  intro p hp
  simp only [List.mem_cons] at hp
  rcases hp with hp | hp
  · subst hp
    simp
    omega
  · obtain ⟨i, hi, rfl⟩ := List.mem_range'.mp hp
    rw [if_neg (by omega)]
    omega

/-- Witness for C7: three pages with page 2 failing, fuel 6. -/
theorem lister_fail_at_page_witness :
    (1 ≤ 2 ∧ 2 ≤ ([[1, 2], [3], [4, 5]] : List (List Nat)).length ∧
      ([[1, 2], [3], [4, 5]] : List (List Nat)).length + 2 ≤ 6) ∧
    (listGists (apiFetchFailAt [[1, 2], [3], [4, 5]] 2) 6).emitted = [1, 2] ∧
    (listGists (apiFetchFailAt [[1, 2], [3], [4, 5]] 2) 6).errs =
      ["page fetch failed"] ∧
    (listGists (apiFetchFailAt [[1, 2], [3], [4, 5]] 2) 6).requested = [0, 2] := by
  have h := lister_fail_at_page ([[1, 2], [3], [4, 5]] : List (List Nat)) 2 6
    (by decide) (by decide) (by decide)
  exact ⟨⟨by decide, by decide, by decide⟩, by simpa using h.1, h.2.1,
    by simpa using h.2.2.1⟩

end G2R

